import Mathlib

/-!
Verification of the Defold material / graphics-handle core.

Shallow embedding of:
  * `src/engine/render/src/render/material.cpp` — material attribute build
    (`CreateAttributes`), attribute overrides (`SetMaterialProgramAttributes`),
    tag registration (`RegisterMaterialTagList`) and tag matching
    (`MatchMaterialTags`);
  * `src/engine/graphics/src/webgpu/graphics_webgpu.cpp` — vertex declaration
    stride/offset computation (`WebGPUGetVertexDeclarationStride`,
    `WebGPUEnableVertexDeclaration`), render-target deletion
    (`WebGPUDeleteRenderTarget`, `WebGPUDeleteTexture`) and handle validation
    (`WebGPUIsAssetHandleValid`).

Helpers living outside the provided sources (the asset handle container from
`graphics_private.h`, `dmGraphics::GetTypeSize`/`GetGraphicsType` from
`graphics.cpp`, the dlib hash functions and `FillElementIds`) are modelled from
the specification; each such definition is marked `Modelled from the spec:`.

Machine bytes are modelled as `Nat` values; buffers as `List Nat`.
-/

namespace DefoldSpec

/-! ## Graphics types and sizes -/

/-- The `dmGraphics::Type`, restricted to the constructors handled by
`GetAttributeDataType` in material.cpp (the remaining enum values hit
`assert(0 && "Type not supported")` there and never reach the code under
study). The declaration order mirrors the C enum, `TYPE_BYTE` first. -/
inductive GType where
  | tbyte
  | tunsignedByte
  | tshort
  | tunsignedShort
  | tint
  | tunsignedInt
  | tfloat
  | tfloatVec2
  | tfloatVec3
  | tfloatVec4
  | tfloatMat2
  | tfloatMat3
  | tfloatMat4
  deriving DecidableEq, Repr

/-- The `dmGraphics::VertexAttribute::DataType` (graphics_ddf): the per-component
data types a vertex attribute can carry. -/
inductive DataType where
  | dByte
  | dUnsignedByte
  | dShort
  | dUnsignedShort
  | dInt
  | dUnsignedInt
  | dFloat
  deriving DecidableEq, Repr

/-- The `TYPE_SIZE` from graphics_webgpu.cpp:52 — byte sizes of the base types, in
C enum order starting at `TYPE_BYTE`. -/
def TYPE_SIZE : List Nat := [1, 1, 2, 2, 4, 4, 4]

/-- Position of a type in the C `dmGraphics::Type` enum, counted from
`TYPE_BYTE` (used for the `TYPE_SIZE[type - TYPE_BYTE]` indexing in
graphics_webgpu.cpp). -/
def typeEnumIndex : GType → Nat
  | .tbyte          => 0
  | .tunsignedByte  => 1
  | .tshort         => 2
  | .tunsignedShort => 3
  | .tint           => 4
  | .tunsignedInt   => 5
  | .tfloat         => 6
  | .tfloatVec2     => 7
  | .tfloatVec3     => 8
  | .tfloatVec4     => 9
  | .tfloatMat2     => 10
  | .tfloatMat3     => 11
  | .tfloatMat4     => 12

/-- The `TYPE_SIZE[type - TYPE_BYTE]`, the table lookup used by
`WebGPUEnableVertexDeclaration`; reads past the 7-entry table (non-base types)
are undefined in C and modelled as 0 — such types never occur in vertex
streams, which are built from `GetGraphicsType` outputs. -/
def typeSizeFromTable (t : GType) : Nat := TYPE_SIZE.getD (typeEnumIndex t) 0

/-- Modelled from the spec: `dmGraphics::GetTypeSize` (graphics.cpp, not under
src/) — byte size of a base graphics type; matches the `TYPE_SIZE` table. Only
ever applied to base types in the code under study. -/
def GetTypeSize : GType → Nat
  | .tbyte          => 1
  | .tunsignedByte  => 1
  | .tshort         => 2
  | .tunsignedShort => 2
  | .tint           => 4
  | .tunsignedInt   => 4
  | .tfloat         => 4
  | _               => 0

/-- Modelled from the spec: `dmGraphics::GetGraphicsType` (graphics.cpp, not
under src/) — maps an attribute data type back to the base graphics type. -/
def GetGraphicsType : DataType → GType
  | .dByte          => .tbyte
  | .dUnsignedByte  => .tunsignedByte
  | .dShort         => .tshort
  | .dUnsignedShort => .tunsignedShort
  | .dInt           => .tint
  | .dUnsignedInt   => .tunsignedInt
  | .dFloat         => .tfloat

/-- The `GetAttributeDataType` from material.cpp:44 — converts a reflected
program type to the attribute data type (mat/vec collapse to float). -/
def GetAttributeDataType : GType → DataType
  | .tfloat     => .dFloat
  | .tfloatVec2 => .dFloat
  | .tfloatVec3 => .dFloat
  | .tfloatVec4 => .dFloat
  | .tfloatMat2 => .dFloat
  | .tfloatMat3 => .dFloat
  | .tfloatMat4 => .dFloat
  | .tbyte          => .dByte
  | .tunsignedByte  => .dUnsignedByte
  | .tshort         => .dShort
  | .tunsignedShort => .dUnsignedShort
  | .tint           => .dInt
  | .tunsignedInt   => .dUnsignedInt

/-! ## Tag matching (`MatchMaterialTags`, material.cpp:570) -/

/-- The inner loop of `MatchMaterialTags`: scan `materialTags` for `tag`
starting at index `lastHit`, returning the absolute index of the first hit. -/
def findTagFrom (materialTags : List Nat) (lastHit : Nat) (tag : Nat) : Option Nat :=
  ((materialTags.drop lastHit).findIdx? (fun mt => mt == tag)).map (· + lastHit)

/-- The outer loop of `MatchMaterialTags`: each query tag must be found at or
after the index just past the previous hit. -/
def matchTagsGo (materialTags : List Nat) (lastHit : Nat) : List Nat → Bool
  | [] => true
  | t :: ts =>
    match findTagFrom materialTags lastHit t with
    | none => false
    | some mt => matchTagsGo materialTags (mt + 1) ts

/-- The `MatchMaterialTags` (material.cpp:570): all query tags must hit, and the
function returns `tag_count > 0` at the end — an empty query never matches. -/
def MatchMaterialTags (materialTags : List Nat) (tags : List Nat) : Bool :=
  matchTagsGo materialTags 0 tags && decide (0 < tags.length)

/-- C2: `Match([1,3,5], [3,5])` is true; `Match([1,3,5], [5,3])` is false (a
query tag only matches at or after the position just past the previous hit);
and for every material tag list, an empty query list never matches. -/
theorem matchMaterialTags_c2 :
    MatchMaterialTags [1, 3, 5] [3, 5] = true
    ∧ MatchMaterialTags [1, 3, 5] [5, 3] = false
    ∧ ∀ materialTags : List Nat, MatchMaterialTags materialTags [] = false := by
  refine ⟨by decide, by decide, ?_⟩
  intro materialTags
  simp [MatchMaterialTags, matchTagsGo]

/-! ## Material tag registry (`RegisterMaterialTagList`, material.cpp:524) -/

/-- The `dmRender::MAX_MATERIAL_TAG_COUNT` (render.h, not under src/).
Modelled from the spec: the fixed capacity of a stored tag list. -/
def MAX_MATERIAL_TAG_COUNT : Nat := 32

/-- The `dmRender::MaterialTagList`: a fixed-capacity tag array plus a count,
modelled as the list of its first `m_Count` tags. -/
structure MaterialTagList where
  tags : List Nat
  deriving DecidableEq, Repr

/-- The registry `context->m_MaterialTagLists`: a hash table from 32-bit keys
to tag lists, modelled as an association list (capacity growth is not
observable). -/
def TagRegistry : Type := List (Nat × MaterialTagList)

/-- The raw bytes of a tag array: each `dmhash_t` tag contributes its 8
little-endian bytes (`sizeof(dmhash_t) * tag_count` bytes in total). -/
def tagListBytes (tags : List Nat) : List Nat :=
  (tags.map (fun t => (List.range 8).map (fun k => t / 2 ^ (8 * k) % 256))).flatten

/-- Modelled from the spec: `dmHashBuffer32` (dlib, not under src/) — a 32-bit
content hash of a byte buffer. Any concrete 32-bit-valued function of the
bytes is a faithful model; a djb2-style fold is used. -/
def dmHashBuffer32 (bytes : List Nat) : Nat :=
  bytes.foldl (fun h b => (h * 65599 + b) % 2 ^ 32) 5381

/-- Hash-table lookup `m_MaterialTagLists.Get(list_key)`. -/
def registryGet (reg : TagRegistry) (key : Nat) : Option MaterialTagList :=
  (reg.find? (fun e => e.1 == key)).map (·.2)

/-- The `RegisterMaterialTagList` (material.cpp:524): the lookup key is the 32-bit
content hash of the raw tag bytes; an existing entry is returned as is,
otherwise the tag list is copied into a new entry. The
`assert(tag_count <= MAX_MATERIAL_TAG_COUNT)` on the miss path is carried as a
precondition of the theorems. -/
def RegisterMaterialTagList (reg : TagRegistry) (tags : List Nat) :
    Nat × TagRegistry :=
  match registryGet reg (dmHashBuffer32 (tagListBytes tags)) with
  | some _ => (dmHashBuffer32 (tagListBytes tags), reg)
  | none =>
    (dmHashBuffer32 (tagListBytes tags),
     (dmHashBuffer32 (tagListBytes tags), ⟨tags⟩) :: reg)

theorem hashFoldStep_lt (bytes : List Nat) (h : Nat) (hh : h < 2 ^ 32) :
    bytes.foldl (fun h b => (h * 65599 + b) % 2 ^ 32) h < 2 ^ 32 := by
  induction bytes generalizing h with
  | nil => simpa using hh
  | cons b rest ih => exact ih _ (Nat.mod_lt _ (by norm_num))

theorem dmHashBuffer32_lt (bytes : List Nat) : dmHashBuffer32 bytes < 2 ^ 32 :=
  hashFoldStep_lt bytes 5381 (by norm_num)

/-- C6: registering the same sorted tag list twice returns the same key both
times — the key is the 32-bit content hash of the raw tag bytes — and the
second call leaves the registry (hence the stored entry) unmodified. -/
theorem registerMaterialTagList_c6 (reg : TagRegistry) (tags : List Nat)
    (_hcount : tags.length ≤ MAX_MATERIAL_TAG_COUNT) :
    (RegisterMaterialTagList reg tags).1 = dmHashBuffer32 (tagListBytes tags)
    ∧ (RegisterMaterialTagList reg tags).1 < 2 ^ 32
    ∧ (RegisterMaterialTagList (RegisterMaterialTagList reg tags).2 tags).1
        = (RegisterMaterialTagList reg tags).1
    ∧ (RegisterMaterialTagList (RegisterMaterialTagList reg tags).2 tags).2
        = (RegisterMaterialTagList reg tags).2 := by
  have hkey : (RegisterMaterialTagList reg tags).1
      = dmHashBuffer32 (tagListBytes tags) := by
    unfold RegisterMaterialTagList
    cases registryGet reg (dmHashBuffer32 (tagListBytes tags)) <;> rfl
  have hhit : ∃ v, registryGet (RegisterMaterialTagList reg tags).2
      (dmHashBuffer32 (tagListBytes tags)) = some v := by
    unfold RegisterMaterialTagList
    cases hg : registryGet reg (dmHashBuffer32 (tagListBytes tags)) with
    | some v => exact ⟨v, hg⟩
    | none => exact ⟨⟨tags⟩, by simp [registryGet]⟩
  obtain ⟨v, hv⟩ := hhit
  refine ⟨hkey, hkey ▸ dmHashBuffer32_lt _, ?_, ?_⟩ <;>
    rw [RegisterMaterialTagList, hv]
  exact hkey.symm

/-- Witness for C6: registering `[10, 20]` twice yields the same key and an
unchanged registry. -/
theorem registerMaterialTagList_c6_witness :
    (RegisterMaterialTagList (RegisterMaterialTagList [] [10, 20]).2 [10, 20]).1
        = (RegisterMaterialTagList [] [10, 20]).1
    ∧ (RegisterMaterialTagList (RegisterMaterialTagList [] [10, 20]).2 [10, 20]).2
        = (RegisterMaterialTagList [] [10, 20]).2 :=
  ⟨(registerMaterialTagList_c6 [] [10, 20] (by decide)).2.2.1,
   (registerMaterialTagList_c6 [] [10, 20] (by decide)).2.2.2⟩

/-! ## Asset handle container and render-target deletion
(graphics_webgpu.cpp; the container itself lives in `graphics_private.h`,
which is not under src/, and is modelled from the spec, sections 3 and 4.1). -/

/-- The webgpu `Texture` struct (graphics_webgpu_private.h, not under src/);
only the `m_Data` shadow-copy pointer is observable through the embedded
operations, modelled as a number (0 = null). -/
structure Texture where
  data : Nat
  deriving DecidableEq, Repr

/-- The webgpu `RenderTarget` struct (graphics_webgpu_private.h, not under
src/): the four owned color-attachment texture handles
(`m_ColorBufferTexture`, 0 = no attachment). Depth/stencil CPU buffers are
plain heap memory with no handle and are not observable here. -/
structure RenderTarget where
  colorBufferTexture : List Nat
  deriving DecidableEq, Repr

/-- A resource object stored in a handle-table slot; the constructor is the
slot's resource-type tag. -/
inductive AssetVal where
  | tex (t : Texture)
  | rt (r : RenderTarget)
  deriving DecidableEq, Repr

/-- The `ASSET_TYPE_TEXTURE` — first value of the C `AssetType` enum. -/
def ASSET_TYPE_TEXTURE : Nat := 0

/-- The `ASSET_TYPE_RENDER_TARGET` — second value of the C `AssetType` enum. -/
def ASSET_TYPE_RENDER_TARGET : Nat := 1

/-- The type tag stored with a slot's resource. -/
def storedTypeOf : AssetVal → Nat
  | .tex _ => ASSET_TYPE_TEXTURE
  | .rt _ => ASSET_TYPE_RENDER_TARGET

/-- Modelled from the spec: the asset handle container of
`graphics_private.h` — a flat slot table owning one backend resource per
occupied slot. -/
structure AssetContainer where
  slots : List (Option AssetVal)
  deriving DecidableEq, Repr

/-- Modelled from the spec: `GetAssetType` — the resource-type tag packed
into the upper bits of a handle. -/
def assetTypeOf (h : Nat) : Nat := h / 2 ^ 32

/-- Modelled from the spec: the table-slot part of a handle (lower 32 bits).
Slot numbering starts at 1, so that 0 is never a live handle. -/
def opaqueOf (h : Nat) : Nat := h % 2 ^ 32

/-- Modelled from the spec: handle construction — a resource-type tag and a
1-based table-slot index packed into one integer. -/
def makeAssetHandle (slotIndex : Nat) (typeTag : Nat) : Nat :=
  typeTag * 2 ^ 32 + (slotIndex + 1)

/-- Modelled from the spec: `GetAssetFromContainer` / `Resolve(handle,
expected_type)` — null when the handle is out of range, the slot is empty, or
the stored type tag does not match the expected type. -/
def getAsset (c : AssetContainer) (h : Nat) (expected : Nat) : Option AssetVal :=
  if opaqueOf h = 0 then none
  else
    match c.slots.getD (opaqueOf h - 1) none with
    | some v => if storedTypeOf v = expected then some v else none
    | none => none

/-- Modelled from the spec: `Release(handle)` — marks the slot free; does not
deallocate the resource. -/
def releaseAsset (c : AssetContainer) (h : Nat) : AssetContainer :=
  if opaqueOf h = 0 then c else ⟨c.slots.set (opaqueOf h - 1) none⟩

/-- The `WebGPUIsAssetHandleValid` (graphics_webgpu.cpp:1378): handle 0 is
invalid; otherwise the handle's embedded type tag selects a texture or
render-target resolution, and any other tag is invalid. -/
def WebGPUIsAssetHandleValid (c : AssetContainer) (h : Nat) : Bool :=
  if h = 0 then false
  else if assetTypeOf h = ASSET_TYPE_TEXTURE then
    (getAsset c h ASSET_TYPE_TEXTURE).isSome
  else if assetTypeOf h = ASSET_TYPE_RENDER_TARGET then
    (getAsset c h ASSET_TYPE_RENDER_TARGET).isSome
  else false

/-- The `WebGPUDeleteTexture` (graphics_webgpu.cpp:1058): resolves the texture
(`assert(tex)` — failure modelled as `none`), frees its heap data, and
releases the handle-table slot. -/
def WebGPUDeleteTexture (c : AssetContainer) (h : Nat) : Option AssetContainer :=
  match getAsset c h ASSET_TYPE_TEXTURE with
  | some (.tex _) => some (releaseAsset c h)
  | _ => none

/-- The color-attachment loop of `WebGPUDeleteRenderTarget`: every nonzero
owned attachment texture handle is deleted, in order. -/
def deleteColorAttachments (c : AssetContainer) :
    List Nat → Option AssetContainer
  | [] => some c
  | th :: rest =>
    if th ≠ 0 then
      match WebGPUDeleteTexture c th with
      | some c' => deleteColorAttachments c' rest
      | none => none
    else deleteColorAttachments c rest

/-- The `WebGPUDeleteRenderTarget` (graphics_webgpu.cpp:913): resolves the render
target (null dereference on failure, modelled as `none`), deletes each owned
color-attachment texture, frees the depth/stencil buffers, and only then
releases the render target's own handle-table slot. -/
def WebGPUDeleteRenderTarget (c : AssetContainer) (h : Nat) :
    Option AssetContainer :=
  match getAsset c h ASSET_TYPE_RENDER_TARGET with
  | some (.rt rt) =>
    match deleteColorAttachments c rt.colorBufferTexture with
    | some c' => some (releaseAsset c' h)
    | none => none
  | _ => none

/-- A handle whose slot part is 0 or whose slot is freed: every resolution of
it fails. -/
def DeadHandle (c : AssetContainer) (h : Nat) : Prop :=
  opaqueOf h = 0 ∨ c.slots.getD (opaqueOf h - 1) none = none

theorem getD_set_none_self (l : List (Option AssetVal)) (i : Nat) :
    (l.set i none).getD i none = none := by
  rw [List.getD_eq_getElem?_getD]
  by_cases hi : i < l.length
  · rw [List.getElem?_set_eq_of_lt none hi]
    rfl
  · rw [List.getElem?_eq_none]
    · rfl
    · rw [List.length_set]
      exact Nat.le_of_not_lt hi

theorem getD_none_of_set_none (l : List (Option AssetVal)) (i j : Nat)
    (h : l.getD i none = none) : (l.set j none).getD i none = none := by
  by_cases hij : j = i
  · subst hij
    exact getD_set_none_self l j
  · rw [List.getD_eq_getElem?_getD, List.getElem?_set_ne hij,
      ← List.getD_eq_getElem?_getD]
    exact h

theorem deadHandle_not_valid (c : AssetContainer) (h : Nat)
    (hd : DeadHandle c h) : WebGPUIsAssetHandleValid c h = false := by
  have hget : ∀ e, getAsset c h e = none := by
    intro e
    unfold getAsset
    rcases hd with h0 | hslot
    · simp [h0]
    · by_cases h0 : opaqueOf h = 0
      · simp [h0]
      · rw [List.getD_eq_getElem?_getD] at hslot
        simp [h0, hslot]
  unfold WebGPUIsAssetHandleValid
  by_cases h0 : h = 0
  · simp [h0]
  · simp [h0, hget]

theorem releaseAsset_preserves_dead (c : AssetContainer) (h h' : Nat)
    (hd : DeadHandle c h) : DeadHandle (releaseAsset c h') h := by
  rcases hd with h0 | hslot
  · exact Or.inl h0
  · right
    unfold releaseAsset
    by_cases h0' : opaqueOf h' = 0
    · simpa [h0'] using hslot
    · simp only [h0', if_false]
      exact getD_none_of_set_none c.slots (opaqueOf h - 1) (opaqueOf h' - 1) hslot

theorem releaseAsset_dead (c : AssetContainer) (h : Nat) :
    DeadHandle (releaseAsset c h) h := by
  by_cases h0 : opaqueOf h = 0
  · exact Or.inl h0
  · right
    unfold releaseAsset
    simp only [h0, if_false]
    exact getD_set_none_self c.slots (opaqueOf h - 1)

theorem deleteTexture_preserves_dead (c c' : AssetContainer) (h th : Nat)
    (hdel : WebGPUDeleteTexture c th = some c') (hd : DeadHandle c h) :
    DeadHandle c' h := by
  unfold WebGPUDeleteTexture at hdel
  cases hg : getAsset c th ASSET_TYPE_TEXTURE with
  | none => rw [hg] at hdel; exact Option.noConfusion hdel
  | some v =>
    cases v with
    | rt r => rw [hg] at hdel; exact Option.noConfusion hdel
    | tex t =>
      rw [hg] at hdel
      cases hdel
      exact releaseAsset_preserves_dead c h th hd

theorem deleteTexture_dead (c c' : AssetContainer) (th : Nat)
    (hdel : WebGPUDeleteTexture c th = some c') : DeadHandle c' th := by
  unfold WebGPUDeleteTexture at hdel
  cases hg : getAsset c th ASSET_TYPE_TEXTURE with
  | none => rw [hg] at hdel; exact Option.noConfusion hdel
  | some v =>
    cases v with
    | rt r => rw [hg] at hdel; exact Option.noConfusion hdel
    | tex t =>
      rw [hg] at hdel
      cases hdel
      exact releaseAsset_dead c th

theorem deleteColorAttachments_preserves_dead (l : List Nat) :
    ∀ (c c' : AssetContainer) (h : Nat),
      deleteColorAttachments c l = some c' → DeadHandle c h →
      DeadHandle c' h := by
  induction l with
  | nil => intro c c' h hdel hd; cases hdel; exact hd
  | cons th rest ih =>
    intro c c' h hdel hd
    unfold deleteColorAttachments at hdel
    by_cases h0 : th ≠ 0
    · rw [if_pos h0] at hdel
      cases hg : WebGPUDeleteTexture c th with
      | none => rw [hg] at hdel; exact Option.noConfusion hdel
      | some c₁ =>
        rw [hg] at hdel
        exact ih c₁ c' h hdel (deleteTexture_preserves_dead c c₁ h th hg hd)
    · rw [if_neg h0] at hdel
      exact ih c c' h hdel hd

theorem deleteColorAttachments_dead (l : List Nat) :
    ∀ (c c' : AssetContainer) (th : Nat),
      deleteColorAttachments c l = some c' → th ∈ l → th ≠ 0 →
      DeadHandle c' th := by
  induction l with
  | nil => intro c c' th _ hmem; cases hmem
  | cons th₀ rest ih =>
    intro c c' th hdel hmem hne
    unfold deleteColorAttachments at hdel
    rcases List.mem_cons.mp hmem with heq | hmem'
    · subst heq
      rw [if_pos hne] at hdel
      cases hg : WebGPUDeleteTexture c th with
      | none => rw [hg] at hdel; exact Option.noConfusion hdel
      | some c₁ =>
        rw [hg] at hdel
        exact deleteColorAttachments_preserves_dead rest c₁ c' th hdel
          (deleteTexture_dead c c₁ th hg)
    · by_cases h0 : th₀ ≠ 0
      · rw [if_pos h0] at hdel
        cases hg : WebGPUDeleteTexture c th₀ with
        | none => rw [hg] at hdel; exact Option.noConfusion hdel
        | some c₁ => rw [hg] at hdel; exact ih c₁ c' th hdel hmem' hne
      · rw [if_neg h0] at hdel
        exact ih c c' th hdel hmem' hne

/-- C8: deleting a render target deletes each of its owned color-attachment
textures before releasing the render target's own slot; afterwards both every
(nonzero) attachment texture handle and the render target handle itself are
reported invalid by `WebGPUIsAssetHandleValid`. -/
theorem deleteRenderTarget_c8 (c c' : AssetContainer) (h : Nat)
    (rt : RenderTarget)
    (hres : getAsset c h ASSET_TYPE_RENDER_TARGET = some (.rt rt))
    (hdel : WebGPUDeleteRenderTarget c h = some c') :
    (∀ th ∈ rt.colorBufferTexture, th ≠ 0 →
      WebGPUIsAssetHandleValid c' th = false)
    ∧ WebGPUIsAssetHandleValid c' h = false := by
  unfold WebGPUDeleteRenderTarget at hdel
  rw [hres] at hdel
  change (match deleteColorAttachments c rt.colorBufferTexture with
    | some c₀ => some (releaseAsset c₀ h)
    | none => none) = some c' at hdel
  cases hatt : deleteColorAttachments c rt.colorBufferTexture with
  | none => rw [hatt] at hdel; exact Option.noConfusion hdel
  | some c₁ =>
    rw [hatt] at hdel
    cases hdel
    constructor
    · intro th hmem hne
      exact deadHandle_not_valid _ th
        (releaseAsset_preserves_dead c₁ th h
          (deleteColorAttachments_dead rt.colorBufferTexture c c₁ th hatt hmem hne))
    · exact deadHandle_not_valid _ h (releaseAsset_dead c₁ h)

/-- A container holding one texture (slot 0, handle 1) and one render target
(slot 1, handle `2^32 + 2 = 4294967298`) whose first color attachment is that
texture. -/
def c8Container : AssetContainer :=
  ⟨[some (.tex ⟨7⟩), some (.rt ⟨[1, 0, 0, 0]⟩)]⟩

/-- Witness for C8: deleting the render target of `c8Container` invalidates
both the attachment texture handle 1 and the render target handle itself. -/
theorem deleteRenderTarget_c8_witness :
    WebGPUIsAssetHandleValid ⟨[none, none]⟩ 1 = false
    ∧ WebGPUIsAssetHandleValid ⟨[none, none]⟩ 4294967298 = false :=
  ⟨(deleteRenderTarget_c8 c8Container ⟨[none, none]⟩ 4294967298 ⟨[1, 0, 0, 0]⟩
      (by decide) (by decide)).1 1 (by decide) (by decide),
   (deleteRenderTarget_c8 c8Container ⟨[none, none]⟩ 4294967298 ⟨[1, 0, 0, 0]⟩
      (by decide) (by decide)).2⟩

/-- C10: `WebGPUIsAssetHandleValid` rejects the handle value 0 in every
container state, and rejects every handle whose embedded asset-type tag is
neither `ASSET_TYPE_TEXTURE` nor `ASSET_TYPE_RENDER_TARGET`. -/
theorem isAssetHandleValid_c10 (c : AssetContainer) (h : Nat) :
    WebGPUIsAssetHandleValid c 0 = false
    ∧ (assetTypeOf h ≠ ASSET_TYPE_TEXTURE →
        assetTypeOf h ≠ ASSET_TYPE_RENDER_TARGET →
        WebGPUIsAssetHandleValid c h = false) := by
  constructor
  · simp [WebGPUIsAssetHandleValid]
  · intro htex hrt
    unfold WebGPUIsAssetHandleValid
    by_cases h0 : h = 0
    · simp [h0]
    · simp [h0, htex, hrt]

/-- Witness for C10 at a concrete handle whose type tag is 2 (neither texture
nor render target), in a container holding one live texture. -/
theorem isAssetHandleValid_c10_witness :
    WebGPUIsAssetHandleValid ⟨[some (.tex ⟨5⟩)]⟩ 0 = false
    ∧ WebGPUIsAssetHandleValid ⟨[some (.tex ⟨5⟩)]⟩ (2 * 2 ^ 32 + 1) = false :=
  ⟨(isAssetHandleValid_c10 ⟨[some (.tex ⟨5⟩)]⟩ (2 * 2 ^ 32 + 1)).1,
   (isAssetHandleValid_c10 ⟨[some (.tex ⟨5⟩)]⟩ (2 * 2 ^ 32 + 1)).2
     (by decide) (by decide)⟩

/-! ## Vertex declarations (graphics_webgpu.cpp:569 and 808) -/

/-- A `VertexStream` entry of a stream declaration: `m_Size` is the element
count, `m_Type` the element type (fields not read by the embedded code are
omitted). -/
structure VertexStream where
  nameHash : Nat
  size : Nat
  type : GType
  deriving DecidableEq, Repr

/-- The `VertexStreamDeclaration`: `m_Streams[0 .. m_StreamCount)`. -/
structure VertexStreamDeclaration where
  streams : List VertexStream
  deriving DecidableEq, Repr

/-- The `VertexDeclaration` with its embedded stream declaration. -/
structure VertexDeclaration where
  streamDeclaration : VertexStreamDeclaration
  deriving DecidableEq, Repr

/-- The `WebGPUGetVertexDeclarationStride` (graphics_webgpu.cpp:808): the tightly
packed stride — `GetTypeSize(stream.m_Type) * stream.m_Size` accumulated over
all streams, no alignment padding. -/
def WebGPUGetVertexDeclarationStride (vd : VertexDeclaration) : Nat :=
  vd.streamDeclaration.streams.foldl
    (fun stride s => stride + GetTypeSize s.type * s.size) 0

/-- A stream's byte size as computed with the `TYPE_SIZE` table
(`stream.m_Size * TYPE_SIZE[stream.m_Type - TYPE_BYTE]`). -/
def streamByteSize (s : VertexStream) : Nat := s.size * typeSizeFromTable s.type

/-- The observable effect of `EnableVertexStream` (graphics_webgpu.cpp:544)
on `context->m_VertexStreams[stream]`: the bound stream index, the stored
byte size (`size * TYPE_SIZE[type - TYPE_BYTE]`), the stride, and the byte
offset of the stream's source inside the vertex buffer
(`&vb->m_Buffer[offset]`). -/
structure VertexStreamBuffer where
  stream : Nat
  byteSize : Nat
  stride : Nat
  offset : Nat
  deriving DecidableEq, Repr

/-- The second loop of `WebGPUEnableVertexDeclaration`: streams with
`m_Size > 0` are enabled at the running byte offset; zero-sized streams are
skipped and do not advance the offset. -/
def enableStreamsGo (stride : Nat) :
    List VertexStream → Nat → Nat → List VertexStreamBuffer
  | [], _, _ => []
  | s :: rest, i, offset =>
    if 0 < s.size then
      ⟨i, streamByteSize s, stride, offset⟩ ::
        enableStreamsGo stride rest (i + 1) (offset + streamByteSize s)
    else enableStreamsGo stride rest (i + 1) offset

/-- The `WebGPUEnableVertexDeclaration` (graphics_webgpu.cpp:569): first
accumulates the stride over all streams, then enables each nonzero-sized
stream at the running prefix-sum offset. -/
def WebGPUEnableVertexDeclaration (vd : VertexDeclaration) :
    List VertexStreamBuffer :=
  enableStreamsGo
    (vd.streamDeclaration.streams.foldl (fun stride s => stride + streamByteSize s) 0)
    vd.streamDeclaration.streams 0 0

theorem foldl_add_map_sum (f : VertexStream → Nat) (l : List VertexStream)
    (init : Nat) :
    l.foldl (fun a s => a + f s) init = init + (l.map f).sum := by
  induction l generalizing init with
  | nil => simp
  | cons s rest ih => simp [ih, Nat.add_assoc]

theorem enableStreamsGo_spec (stride : Nat) (l : List VertexStream) :
    ∀ (i off : Nat) (e : VertexStreamBuffer), e ∈ enableStreamsGo stride l i off →
      ∃ j, j < l.length ∧ e.stream = i + j
        ∧ 0 < (l.getD j ⟨0, 0, .tbyte⟩).size
        ∧ e.offset = off + ((l.take j).map streamByteSize).sum
        ∧ e.byteSize = streamByteSize (l.getD j ⟨0, 0, .tbyte⟩) := by
  induction l with
  | nil => intro i off e hmem; cases hmem
  | cons s rest ih =>
    intro i off e hmem
    unfold enableStreamsGo at hmem
    by_cases hs : 0 < s.size
    · rw [if_pos hs] at hmem
      rcases List.mem_cons.mp hmem with heq | hmem'
      · subst heq
        exact ⟨0, Nat.succ_pos _, rfl, hs, by simp, rfl⟩
      · obtain ⟨j, hj, hstream, hsize, hoff, hbs⟩ := ih (i + 1) (off + streamByteSize s) e hmem'
        refine ⟨j + 1, Nat.succ_lt_succ hj, ?_, hsize, ?_, hbs⟩
        · rw [hstream]; omega
        · rw [hoff]; simp [Nat.add_assoc]
    · rw [if_neg hs] at hmem
      obtain ⟨j, hj, hstream, hsize, hoff, hbs⟩ := ih (i + 1) off e hmem
      have hzero : streamByteSize s = 0 := by
        unfold streamByteSize
        have : s.size = 0 := Nat.eq_zero_of_not_pos hs
        simp [this]
      refine ⟨j + 1, Nat.succ_lt_succ hj, ?_, hsize, ?_, hbs⟩
      · rw [hstream]; omega
      · rw [hoff]; simp [hzero]

/-- C9: the vertex declaration stride is the sum over all streams of
`type_size * element_count` with no padding; every enabled stream's byte
offset is the prefix sum of the byte sizes of all preceding streams; and
streams with `element_count == 0` contribute zero bytes and are never enabled
on the backend. -/
theorem vertexDeclaration_c9 (vd : VertexDeclaration) :
    WebGPUGetVertexDeclarationStride vd
      = (vd.streamDeclaration.streams.map (fun s => GetTypeSize s.type * s.size)).sum
    ∧ (∀ e ∈ WebGPUEnableVertexDeclaration vd,
        e.stream < vd.streamDeclaration.streams.length
        ∧ 0 < (vd.streamDeclaration.streams.getD e.stream ⟨0, 0, .tbyte⟩).size
        ∧ e.offset
            = ((vd.streamDeclaration.streams.take e.stream).map streamByteSize).sum
        ∧ e.byteSize
            = streamByteSize (vd.streamDeclaration.streams.getD e.stream ⟨0, 0, .tbyte⟩))
    ∧ (∀ j, j < vd.streamDeclaration.streams.length →
        (vd.streamDeclaration.streams.getD j ⟨0, 0, .tbyte⟩).size = 0 →
        ∀ e ∈ WebGPUEnableVertexDeclaration vd, e.stream ≠ j) := by
  have henable : ∀ e ∈ WebGPUEnableVertexDeclaration vd,
      e.stream < vd.streamDeclaration.streams.length
      ∧ 0 < (vd.streamDeclaration.streams.getD e.stream ⟨0, 0, .tbyte⟩).size
      ∧ e.offset
          = ((vd.streamDeclaration.streams.take e.stream).map streamByteSize).sum
      ∧ e.byteSize
          = streamByteSize (vd.streamDeclaration.streams.getD e.stream ⟨0, 0, .tbyte⟩) := by
    intro e hmem
    obtain ⟨j, hj, hstream, hsize, hoff, hbs⟩ :=
      enableStreamsGo_spec _ vd.streamDeclaration.streams 0 0 e hmem
    have hj' : e.stream = j := by omega
    subst hj'
    exact ⟨hj, hsize, by simpa using hoff, hbs⟩
  refine ⟨by rw [WebGPUGetVertexDeclarationStride, foldl_add_map_sum]; omega,
    henable, ?_⟩
  intro j hj hzero e hmem heq
  have := (henable e hmem).2.1
  rw [heq, hzero] at this
  exact Nat.lt_irrefl 0 this

/-- Witness for C9 at a concrete three-stream declaration (sizes 3, 0, 2):
the stride is 16 and the stream at index 2 is enabled at prefix-sum
offset 12. -/
theorem vertexDeclaration_c9_witness :
    WebGPUGetVertexDeclarationStride
        ⟨⟨[⟨11, 3, .tfloat⟩, ⟨12, 0, .tbyte⟩, ⟨13, 2, .tshort⟩]⟩⟩
      = ([⟨11, 3, .tfloat⟩, ⟨12, 0, .tbyte⟩, (⟨13, 2, .tshort⟩ : VertexStream)].map
          (fun s => GetTypeSize s.type * s.size)).sum
    ∧ ((⟨2, 4, 16, 12⟩ : VertexStreamBuffer).offset
        = (([⟨11, 3, .tfloat⟩, ⟨12, 0, .tbyte⟩,
            (⟨13, 2, .tshort⟩ : VertexStream)].take 2).map streamByteSize).sum) :=
  ⟨(vertexDeclaration_c9 ⟨⟨[⟨11, 3, .tfloat⟩, ⟨12, 0, .tbyte⟩, ⟨13, 2, .tshort⟩]⟩⟩).1,
   ((vertexDeclaration_c9 ⟨⟨[⟨11, 3, .tfloat⟩, ⟨12, 0, .tbyte⟩, ⟨13, 2, .tshort⟩]⟩⟩).2.1
      ⟨2, 4, 16, 12⟩ (by decide)).2.2.1⟩

/-! ## Material attribute store (material.cpp) -/

/-- The `dmGraphics::VertexAttribute::SemanticType` — constructors used by
`GetAttributeSemanticType`. -/
inductive SemanticType where
  | stNone
  | stPosition
  | stTexcoord
  | stColor
  | stPageIndex
  | stNormal
  | stTangent
  deriving DecidableEq, Repr

/-- The `dmGraphics::CoordinateSpace`. -/
inductive CoordinateSpace where
  | world
  | local
  deriving DecidableEq, Repr

/-- Modelled from the spec: the `VERTEX_STREAM_*` name-hash constants
(render.h, not under src/) — hashes of the well-known stream names; any
distinct concrete values are faithful. -/
def VERTEX_STREAM_POSITION : Nat := 9001

def VERTEX_STREAM_TEXCOORD0 : Nat := 9002

def VERTEX_STREAM_TEXCOORD1 : Nat := 9003

def VERTEX_STREAM_COLOR : Nat := 9004

def VERTEX_STREAM_PAGE_INDEX : Nat := 9005

def VERTEX_STREAM_NORMAL : Nat := 9006

def VERTEX_STREAM_TANGENT : Nat := 9007

/-- The `GetAttributeSemanticType` (material.cpp:32). -/
def GetAttributeSemanticType (fromHash : Nat) : SemanticType :=
  if fromHash = VERTEX_STREAM_POSITION then .stPosition
  else if fromHash = VERTEX_STREAM_TEXCOORD0 then .stTexcoord
  else if fromHash = VERTEX_STREAM_TEXCOORD1 then .stTexcoord
  else if fromHash = VERTEX_STREAM_COLOR then .stColor
  else if fromHash = VERTEX_STREAM_PAGE_INDEX then .stPageIndex
  else if fromHash = VERTEX_STREAM_NORMAL then .stNormal
  else if fromHash = VERTEX_STREAM_TANGENT then .stTangent
  else .stNone

/-- The `dmGraphics::VertexAttribute`: the descriptor record. `m_Name` is a C
string (null = `none`), modelled as its byte list; `m_Values.m_BinaryValues`
is the raw value payload returned by `GetAttributeValues`. -/
structure VertexAttribute where
  nameHash : Nat
  semanticType : SemanticType
  dataType : DataType
  elementCount : Nat
  normalize : Bool
  coordinateSpace : CoordinateSpace
  name : Option (List Nat)
  valueBytes : List Nat
  deriving DecidableEq, Repr

/-- The `dmRender::MaterialAttribute` (render_private.h): per-attribute runtime
metadata; `elementIds` is the 4-entry `m_ElementIds` array. -/
structure MaterialAttribute where
  location : Int
  valueIndex : Nat
  valueCount : Nat
  elementIds : List Nat
  deriving DecidableEq, Repr

instance : Inhabited MaterialAttribute := ⟨⟨0, 0, 0, []⟩⟩

instance : Inhabited VertexAttribute :=
  ⟨⟨0, .stNone, .dFloat, 0, false, .world, none, []⟩⟩

/-- The parts of `dmRender::Material` read and written by the embedded
operations: the attribute descriptor array, the per-attribute metadata array,
and the packed attribute value buffer. -/
structure Material where
  vertexAttributes : List VertexAttribute
  materialAttributes : List MaterialAttribute
  materialAttributeValues : List Nat
  deriving DecidableEq, Repr

/-- One reflected program attribute, as produced by
`dmGraphics::GetAttribute` (name hash, type, element count, value count,
location). -/
structure ReflectedAttribute where
  nameHash : Nat
  type : GType
  elementCount : Nat
  numValues : Nat
  location : Int
  deriving DecidableEq, Repr

instance : Inhabited ReflectedAttribute := ⟨⟨0, .tfloat, 0, 0, 0⟩⟩

/-- The byte size of one attribute's slot in the packed value buffer:
`GetTypeSize(GetGraphicsType(m_DataType)) * m_ElementCount`
(material.cpp:131-133 and material.cpp:415-416). -/
def attributeByteSize (a : VertexAttribute) : Nat :=
  GetTypeSize (GetGraphicsType a.dataType) * a.elementCount

/-- The vertex attribute descriptor built by the `CreateAttributes` loop body
(material.cpp:118-124); `m_Name` and `m_Values` are not written there and
keep their default (empty) contents. -/
def vaOfReflected (r : ReflectedAttribute) : VertexAttribute :=
  { nameHash := r.nameHash
    semanticType := GetAttributeSemanticType r.nameHash
    dataType := GetAttributeDataType r.type
    elementCount := r.elementCount
    normalize := false
    coordinateSpace := .world
    name := none
    valueBytes := [] }

/-- The byte size contributed by one reflected attribute. -/
def rByteSize (r : ReflectedAttribute) : Nat :=
  GetTypeSize (GetGraphicsType (GetAttributeDataType r.type)) * r.elementCount

/-- The result of the `CreateAttributes` loop: both attribute arrays plus the
accumulated `num_attribute_byte_size`. -/
structure BuiltAttributes where
  vas : List VertexAttribute
  mas : List MaterialAttribute
  total : Nat
  deriving DecidableEq, Repr

/-- The `CreateAttributes` loop (material.cpp:108-140): builds both attribute
arrays while accumulating `num_attribute_byte_size`; each entry's
`m_ValueIndex` is the accumulator value before adding its own byte size.
`m_ElementIds` is not written by this loop (`dmArray::SetSize` leaves it
uninitialized); the model uses zeros. -/
def buildAttributeArrays : List ReflectedAttribute → Nat → BuiltAttributes
  | [], acc => ⟨[], [], acc⟩
  | r :: rest, acc =>
    let b := buildAttributeArrays rest (acc + rByteSize r)
    ⟨vaOfReflected r :: b.vas,
     ⟨r.location, acc, r.numValues, [0, 0, 0, 0]⟩ :: b.mas,
     b.total⟩

/-- The `CreateAttributes` (material.cpp:98): builds the attribute arrays from
program reflection, then allocates the packed value buffer at the accumulated
byte size and zero-initializes it (`memset`, material.cpp:144). -/
def CreateAttributes (reflected : List ReflectedAttribute) : Material :=
  ⟨(buildAttributeArrays reflected 0).vas,
   (buildAttributeArrays reflected 0).mas,
   List.replicate (buildAttributeArrays reflected 0).total 0⟩

theorem buildAttributeArrays_total (rs : List ReflectedAttribute) :
    ∀ acc, (buildAttributeArrays rs acc).total = acc + (rs.map rByteSize).sum := by
  induction rs with
  | nil => intro acc; simp [buildAttributeArrays]
  | cons r rest ih =>
    intro acc
    have h2 := ih (acc + rByteSize r)
    simp only [buildAttributeArrays, List.map_cons, List.sum_cons]
    omega

theorem buildAttributeArrays_ma_getD (rs : List ReflectedAttribute) :
    ∀ acc i, i < rs.length →
      ((buildAttributeArrays rs acc).mas.getD i default).valueIndex
        = acc + ((rs.take i).map rByteSize).sum := by
  induction rs with
  | nil => intro acc i h; cases h
  | cons r rest ih =>
    intro acc i h
    cases i with
    | zero => simp [buildAttributeArrays]
    | succ k =>
      have hk : k < rest.length := Nat.lt_of_succ_lt_succ h
      have h2 := ih (acc + rByteSize r) k hk
      simp only [buildAttributeArrays, List.getD_cons_succ, List.take_succ_cons,
        List.map_cons, List.sum_cons]
      omega

theorem buildAttributeArrays_va_getD (rs : List ReflectedAttribute) :
    ∀ acc i, i < rs.length →
      (buildAttributeArrays rs acc).vas.getD i default
        = vaOfReflected (rs.getD i default) := by
  induction rs with
  | nil => intro acc i h; cases h
  | cons r rest ih =>
    intro acc i h
    cases i with
    | zero => simp [buildAttributeArrays]
    | succ k =>
      have hk : k < rest.length := Nat.lt_of_succ_lt_succ h
      have h2 := ih (acc + rByteSize r) k hk
      simpa [buildAttributeArrays] using h2

theorem take_succ_map_sum (rs : List ReflectedAttribute) (i : Nat)
    (h : i < rs.length) :
    ((rs.take (i + 1)).map rByteSize).sum
      = ((rs.take i).map rByteSize).sum + rByteSize (rs.getD i default) := by
  induction rs generalizing i with
  | nil => cases h
  | cons r rest ih =>
    cases i with
    | zero => simp
    | succ k =>
      have hk : k < rest.length := Nat.lt_of_succ_lt_succ h
      simp only [List.take_succ_cons, List.map_cons, List.sum_cons, List.getD_cons_succ]
      rw [ih k hk]
      omega

/-- C1: after `CreateAttributes`, the packed value buffer's size is the sum of
the per-attribute byte sizes (`type_size(data_type) * element_count`), each
attribute's `m_ValueIndex` is the prefix sum of the preceding byte sizes (so
`value_index[i+1] = value_index[i] + byte_size(descriptor[i])`), and every
byte of the buffer is zero. -/
theorem createAttributes_c1 (reflected : List ReflectedAttribute) :
    (CreateAttributes reflected).materialAttributeValues.length
      = (reflected.map rByteSize).sum
    ∧ (∀ i, i + 1 < reflected.length →
        ((CreateAttributes reflected).materialAttributes.getD (i + 1) default).valueIndex
          = ((CreateAttributes reflected).materialAttributes.getD i default).valueIndex
            + attributeByteSize
                ((CreateAttributes reflected).vertexAttributes.getD i default))
    ∧ ∀ b ∈ (CreateAttributes reflected).materialAttributeValues, b = 0 := by
  refine ⟨?_, ?_, ?_⟩
  · simp [CreateAttributes, buildAttributeArrays_total reflected 0]
  · intro i h
    have hi : i < reflected.length := Nat.lt_of_succ_lt h
    show ((buildAttributeArrays reflected 0).mas.getD (i + 1) default).valueIndex
      = ((buildAttributeArrays reflected 0).mas.getD i default).valueIndex
        + attributeByteSize ((buildAttributeArrays reflected 0).vas.getD i default)
    rw [buildAttributeArrays_ma_getD reflected 0 (i + 1) h,
      buildAttributeArrays_ma_getD reflected 0 i hi,
      buildAttributeArrays_va_getD reflected 0 i hi,
      take_succ_map_sum reflected i hi]
    have hab : attributeByteSize (vaOfReflected (reflected.getD i default))
        = rByteSize (reflected.getD i default) := rfl
    omega
  · intro b hb
    exact List.eq_of_mem_replicate hb

/-- Witness for C1 on a two-attribute reflection (a `vec3` float attribute
and a 4-element byte attribute): the buffer is 16 zero bytes and the second
`value_index` is 12. -/
theorem createAttributes_c1_witness :
    ((CreateAttributes [⟨21, .tfloatVec3, 3, 1, 0⟩, ⟨22, .tbyte, 4, 1, 1⟩]).materialAttributes.getD 1 default).valueIndex
      = ((CreateAttributes [⟨21, .tfloatVec3, 3, 1, 0⟩, ⟨22, .tbyte, 4, 1, 1⟩]).materialAttributes.getD 0 default).valueIndex
        + attributeByteSize
            ((CreateAttributes [⟨21, .tfloatVec3, 3, 1, 0⟩, ⟨22, .tbyte, 4, 1, 1⟩]).vertexAttributes.getD 0 default) :=
  (createAttributes_c1 [⟨21, .tfloatVec3, 3, 1, 0⟩, ⟨22, .tbyte, 4, 1, 1⟩]).2.1
    0 (by decide)

/-! ## Attribute overrides (`SetMaterialProgramAttributes`, material.cpp:373) -/

/-- In-place update of one array element (`array[i] = f(array[i])`); out of
range is a no-op (unreachable at the embedded call sites). -/
def listModify {α : Type} (l : List α) (i : Nat) (f : α → α) : List α :=
  match l[i]? with
  | some x => l.set i (f x)
  | none => l

/-- The search loop of `GetMaterialAttributeIndex` (material.cpp:256): index
of the first attribute with the given name hash. -/
def findAttributeIndex : List VertexAttribute → Nat → Option Nat
  | [], _ => none
  | x :: rest, nameHash =>
    if x.nameHash = nameHash then some 0
    else (findAttributeIndex rest nameHash).map (· + 1)

/-- The `GetMaterialAttributeIndex` (material.cpp:256);
`INVALID_MATERIAL_ATTRIBUTE_INDEX` is modelled as `none`. -/
def GetMaterialAttributeIndex (m : Material) (nameHash : Nat) : Option Nat :=
  findAttributeIndex m.vertexAttributes nameHash

/-- The field copy of the first `SetMaterialProgramAttributes` loop
(material.cpp:392-397): data type, normalize, element count, semantic type
and coordinate space are overwritten from the incoming descriptor; name hash,
name and value payload of the stored attribute are untouched. -/
def overwriteAttributeFields (incoming old : VertexAttribute) : VertexAttribute :=
  { old with
    dataType := incoming.dataType
    normalize := incoming.normalize
    elementCount := incoming.elementCount
    semanticType := incoming.semanticType
    coordinateSpace := incoming.coordinateSpace }

/-- The first loop of `SetMaterialProgramAttributes` (material.cpp:383-400):
each incoming descriptor that matches a stored attribute by name hash
overwrites that attribute's fields; the returned flag is `update_attributes`
(true iff at least one descriptor matched). -/
def applyAttributeUpdates :
    List VertexAttribute → List VertexAttribute → List VertexAttribute × Bool
  | va, [] => (va, false)
  | va, a :: rest =>
    match findAttributeIndex va a.nameHash with
    | none => applyAttributeUpdates va rest
    | some i =>
      ((applyAttributeUpdates (listModify va i (overwriteAttributeFields a)) rest).1,
       true)

/-- The re-layout loop of `SetMaterialProgramAttributes`
(material.cpp:409-417): walks both arrays in step, assigning each
`m_ValueIndex` the running byte total. -/
def recomputeValueIndices :
    List VertexAttribute → List MaterialAttribute → Nat → List MaterialAttribute
  | _, [], _ => []
  | [], mas, _ => mas
  | v :: vs, ma :: mas, acc =>
    { ma with valueIndex := acc } ::
      recomputeValueIndices vs mas (acc + attributeByteSize v)

/-- The total packed-buffer byte size accumulated by the re-layout loop. -/
def totalByteSize (va : List VertexAttribute) : Nat :=
  (va.map attributeByteSize).sum

/-- The `dmArray::SetCapacity` + `SetSize` on the byte buffer
(material.cpp:419-420): reallocates preserving the existing bytes up to the
new size; bytes beyond the old size are uninitialized in C++ and modelled
as 0. -/
def resizeBytes (buf : List Nat) (n : Nat) : List Nat :=
  (List.range n).map (fun p => buf.getD p 0)

/-- The `memcpy(&values[idx], src, n)` on the packed buffer: positions
`idx ≤ p < idx + n` receive `src[p - idx]`; the embedded call sites guarantee
`n ≤ src.length`. Writes past the buffer end (out-of-bounds in C++) are
dropped. -/
def writeBytes (buf : List Nat) (idx : Nat) (src : List Nat) (n : Nat) : List Nat :=
  (List.range buf.length).map
    (fun p => if idx ≤ p ∧ p < idx + n then src.getD (p - idx) 0 else buf.getD p 0)

/-- The `dmStrlCpy` into the 128-byte `name_buffer` (material.cpp:422-448):
copies at most 127 name bytes. -/
def truncateName (name : List Nat) : List Nat := name.take 127

/-- Modelled from the spec: `dmHashString64` (dlib, not under src/) — a
64-bit hash of a byte string; any concrete 64-bit-valued function of the
bytes is a faithful model. -/
def dmHashString64 (bytes : List Nat) : Nat :=
  bytes.foldl (fun h b => (h * 33 + b) % 2 ^ 64) 5381

/-- Modelled from the spec: `FillElementIds` (render.cpp, not under src/) —
the four sub-element name hashes derived from the attribute name by appending
`.x`, `.y`, `.z`, `.w` (`.` = 46, `x` = 120, `y` = 121, `z` = 122,
`w` = 119). -/
def FillElementIds (name : List Nat) : List Nat :=
  [dmHashString64 (name ++ [46, 120]),
   dmHashString64 (name ++ [46, 121]),
   dmHashString64 (name ++ [46, 122]),
   dmHashString64 (name ++ [46, 119])]

/-- The byte count the second loop copies for one matching descriptor
(material.cpp:441-443): `GetTypeSize(type) * element_count * value_count`,
clamped by the incoming payload size. -/
def copyByteCount (a : VertexAttribute) (ma : MaterialAttribute) : Nat :=
  min (GetTypeSize (GetGraphicsType a.dataType) * a.elementCount * ma.valueCount)
    a.valueBytes.length

/-- The element-id regeneration at the end of the copy loop
(material.cpp:446-450): only descriptors with a non-null `m_Name` rewrite
`m_ElementIds`. -/
def elementIdsUpdate (a : VertexAttribute) (ma : MaterialAttribute) :
    MaterialAttribute :=
  match a.name with
  | some s => { ma with elementIds := FillElementIds (truncateName s) }
  | none => ma

/-- The second loop of `SetMaterialProgramAttributes` (material.cpp:426-451):
for each matching descriptor, copy its raw value bytes to the attribute's new
offset and, when the descriptor carries a non-null name, regenerate the
element ids from it. -/
def applyValueCopies (m : Material) : List VertexAttribute → Material
  | [] => m
  | a :: rest =>
    match GetMaterialAttributeIndex m a.nameHash with
    | none => applyValueCopies m rest
    | some i =>
      match m.materialAttributes[i]? with
      | none => applyValueCopies m rest
      | some ma =>
        applyValueCopies
          { m with
            materialAttributeValues :=
              writeBytes m.materialAttributeValues ma.valueIndex a.valueBytes
                (copyByteCount a ma)
            materialAttributes := m.materialAttributes.set i (elementIdsUpdate a ma) }
          rest

/-- The `SetMaterialProgramAttributes` (material.cpp:373): early-out on an empty
incoming list; overwrite matching descriptors; if nothing matched, stop;
otherwise recompute all value indices, resize the packed buffer, and run the
value-copy loop. (`CreateVertexDeclaration` at the end touches only the
backend vertex declaration, which is not part of the modelled state.) -/
def SetMaterialProgramAttributes (m : Material) (attrs : List VertexAttribute) :
    Material :=
  if attrs.isEmpty then m
  else if !(applyAttributeUpdates m.vertexAttributes attrs).2 then
    { m with vertexAttributes := (applyAttributeUpdates m.vertexAttributes attrs).1 }
  else
    applyValueCopies
      { vertexAttributes := (applyAttributeUpdates m.vertexAttributes attrs).1
        materialAttributes :=
          recomputeValueIndices (applyAttributeUpdates m.vertexAttributes attrs).1
            m.materialAttributes 0
        materialAttributeValues :=
          resizeBytes m.materialAttributeValues
            (totalByteSize (applyAttributeUpdates m.vertexAttributes attrs).1) }
      attrs

/-! ## Pointwise buffer and list infrastructure -/

theorem eq_of_getD_eq (l1 l2 : List Nat) (hlen : l1.length = l2.length)
    (h : ∀ p, l1.getD p 0 = l2.getD p 0) : l1 = l2 := by
  apply List.ext_getElem?
  intro i
  by_cases hi : i < l1.length
  · have hi2 : i < l2.length := hlen ▸ hi
    have hd := h i
    rw [List.getD_eq_getElem?_getD, List.getD_eq_getElem?_getD,
      List.getElem?_eq_getElem hi, List.getElem?_eq_getElem hi2] at hd
    rw [List.getElem?_eq_getElem hi, List.getElem?_eq_getElem hi2]
    simpa using hd
  · rw [List.getElem?_eq_none (Nat.le_of_not_lt hi),
      List.getElem?_eq_none (Nat.le_of_not_lt (hlen ▸ hi))]

theorem writeBytes_length (buf : List Nat) (idx : Nat) (src : List Nat)
    (n : Nat) : (writeBytes buf idx src n).length = buf.length := by
  simp [writeBytes]

theorem writeBytes_getD (buf : List Nat) (idx : Nat) (src : List Nat)
    (n p : Nat) :
    (writeBytes buf idx src n).getD p 0
      = if p < buf.length then
          (if idx ≤ p ∧ p < idx + n then src.getD (p - idx) 0 else buf.getD p 0)
        else 0 := by
  rw [List.getD_eq_getElem?_getD]
  unfold writeBytes
  by_cases hp : p < buf.length
  · rw [List.getElem?_map, List.getElem?_range (by simpa using hp)]
    simp [hp]
  · rw [List.getElem?_eq_none (by simpa using Nat.le_of_not_lt hp)]
    simp [hp]

theorem writeBytes_getD_outside (buf : List Nat) (idx : Nat) (src : List Nat)
    (n p : Nat) (h : ¬(idx ≤ p ∧ p < idx + n)) :
    (writeBytes buf idx src n).getD p 0 = buf.getD p 0 := by
  rw [writeBytes_getD]
  by_cases hp : p < buf.length
  · simp [hp, h]
  · rw [if_neg hp, List.getD_eq_getElem?_getD,
      List.getElem?_eq_none (Nat.le_of_not_lt hp)]
    rfl

/-- A pending `memcpy`: target byte offset, source bytes, byte count. -/
def StoreOp : Type := Nat × List Nat × Nat

/-- Apply a sequence of buffer writes in order. -/
def applyStores (buf : List Nat) : List StoreOp → List Nat
  | [] => buf
  | w :: rest => applyStores (writeBytes buf w.1 w.2.1 w.2.2) rest

/-- A byte position hit by at least one write of the sequence. -/
def coveredBy (S : List StoreOp) (p : Nat) : Prop :=
  ∃ w ∈ S, w.1 ≤ p ∧ p < w.1 + w.2.2

instance instDecidableCoveredBy (S : List StoreOp) (p : Nat) :
    Decidable (coveredBy S p) :=
  inferInstanceAs (Decidable (∃ w ∈ S, w.1 ≤ p ∧ p < w.1 + w.2.2))

theorem coveredBy_cons (w : StoreOp) (S : List StoreOp) (p : Nat) :
    coveredBy (w :: S) p ↔ (w.1 ≤ p ∧ p < w.1 + w.2.2) ∨ coveredBy S p := by
  unfold coveredBy
  constructor
  · rintro ⟨x, hx, hp⟩
    rcases List.mem_cons.mp hx with rfl | hx'
    · exact Or.inl hp
    · exact Or.inr ⟨x, hx', hp⟩
  · rintro (hp | ⟨x, hx, hp⟩)
    · exact ⟨w, List.mem_cons_self w S, hp⟩
    · exact ⟨x, List.mem_cons_of_mem w hx, hp⟩

theorem applyStores_length (S : List StoreOp) :
    ∀ buf, (applyStores buf S).length = buf.length := by
  induction S with
  | nil => intro buf; rfl
  | cons w rest ih =>
    intro buf
    rw [applyStores, ih, writeBytes_length]

theorem applyStores_getD_not_covered (S : List StoreOp) :
    ∀ buf p, ¬ coveredBy S p →
      (applyStores buf S).getD p 0 = buf.getD p 0 := by
  induction S with
  | nil => intro buf p _; rfl
  | cons w rest ih =>
    intro buf p hnc
    have hw : ¬(w.1 ≤ p ∧ p < w.1 + w.2.2) :=
      fun hp => hnc ((coveredBy_cons w rest p).mpr (Or.inl hp))
    have hrest : ¬ coveredBy rest p :=
      fun hp => hnc ((coveredBy_cons w rest p).mpr (Or.inr hp))
    rw [applyStores, ih _ p hrest, writeBytes_getD_outside _ _ _ _ _ hw]

theorem applyStores_congr (S : List StoreOp) :
    ∀ buf1 buf2, buf1.length = buf2.length →
      (∀ p, ¬ coveredBy S p → buf1.getD p 0 = buf2.getD p 0) →
      applyStores buf1 S = applyStores buf2 S := by
  induction S with
  | nil =>
    intro buf1 buf2 hlen h
    exact eq_of_getD_eq buf1 buf2 hlen (fun p => h p (by rintro ⟨x, hx, -⟩; cases hx))
  | cons w rest ih =>
    intro buf1 buf2 hlen h
    rw [applyStores, applyStores]
    apply ih
    · rw [writeBytes_length, writeBytes_length, hlen]
    · intro p hpr
      by_cases hw : w.1 ≤ p ∧ p < w.1 + w.2.2
      · rw [writeBytes_getD, writeBytes_getD, if_pos hw, if_pos hw, hlen]
      · rw [writeBytes_getD_outside _ _ _ _ _ hw,
          writeBytes_getD_outside _ _ _ _ _ hw]
        exact h p (fun hc => by
          rcases (coveredBy_cons w rest p).mp hc with hc1 | hc2
          · exact hw hc1
          · exact hpr hc2)

theorem applyStores_idem (S : List StoreOp) (buf : List Nat) :
    applyStores (applyStores buf S) S = applyStores buf S := by
  apply applyStores_congr S (applyStores buf S) buf (applyStores_length S buf)
  intro p hp
  exact applyStores_getD_not_covered S buf p hp

theorem resizeBytes_length (buf : List Nat) (n : Nat) :
    (resizeBytes buf n).length = n := by
  simp [resizeBytes]

theorem resizeBytes_eq_self (buf : List Nat) (n : Nat) (h : buf.length = n) :
    resizeBytes buf n = buf := by
  apply List.ext_getElem?
  intro i
  unfold resizeBytes
  by_cases hi : i < n
  · rw [List.getElem?_map, List.getElem?_range (by simpa using hi),
      Option.map_some', List.getD_eq_getElem?_getD,
      List.getElem?_eq_getElem (h ▸ hi)]
    rfl
  · rw [List.getElem?_eq_none (by simpa using Nat.le_of_not_lt hi),
      List.getElem?_eq_none (by omega)]

theorem listModify_getElem {α : Type} (l : List α) (i : Nat) (f : α → α)
    (j : Nat) :
    (listModify l i f)[j]? = if j = i then l[j]?.map f else l[j]? := by
  unfold listModify
  cases hx : l[i]? with
  | none =>
    by_cases hj : j = i
    · subst hj; simp [hx]
    · simp [hj]
  | some x =>
    by_cases hj : j = i
    · subst hj
      rw [List.getElem?_set_self', hx]
      simp [hx]
    · rw [List.getElem?_set_ne (fun hh => hj hh.symm)]
      simp [hj]

/-! ## Characterization of the attribute-update loop -/

/-- The name-hash skeleton of an attribute array — the only part of the
array the matching logic reads, and the part no update ever changes. -/
def nameHashesOf (va : List VertexAttribute) : List Nat := va.map (·.nameHash)

/-- The `findAttributeIndex` on the name-hash skeleton. -/
def findHashIdx : List Nat → Nat → Option Nat
  | [], _ => none
  | h :: rest, nh =>
    if h = nh then some 0 else (findHashIdx rest nh).map (· + 1)

theorem findAttributeIndex_eq_hash (va : List VertexAttribute) (nh : Nat) :
    findAttributeIndex va nh = findHashIdx (nameHashesOf va) nh := by
  induction va with
  | nil => rfl
  | cons x rest ih => simp [findAttributeIndex, findHashIdx, nameHashesOf, ih]

theorem overwrite_nameHash (a x : VertexAttribute) :
    (overwriteAttributeFields a x).nameHash = x.nameHash := rfl

theorem overwrite_overwrite (b a x : VertexAttribute) :
    overwriteAttributeFields b (overwriteAttributeFields a x)
      = overwriteAttributeFields b x := rfl

/-- The last incoming descriptor of `attrs` whose first-match index in the
stored name hashes is `j` (the one whose field overwrite survives). -/
def lastMatchUpd (nhs : List Nat) : List VertexAttribute → Nat → Option VertexAttribute
  | [], _ => none
  | a :: rest, j =>
    match lastMatchUpd nhs rest j with
    | some b => some b
    | none => if findHashIdx nhs a.nameHash = some j then some a else none

theorem listModify_nameHashes (va : List VertexAttribute) (i : Nat)
    (a : VertexAttribute) :
    nameHashesOf (listModify va i (overwriteAttributeFields a)) = nameHashesOf va := by
  apply List.ext_getElem?
  intro j
  simp only [nameHashesOf, List.getElem?_map, listModify_getElem]
  by_cases hj : j = i
  · subst hj
    cases va[j]? <;> simp [overwrite_nameHash]
  · simp [hj]

theorem applyAttributeUpdates_getElem (attrs : List VertexAttribute) :
    ∀ (va : List VertexAttribute) (j : Nat),
      ((applyAttributeUpdates va attrs).1)[j]?
        = match lastMatchUpd (nameHashesOf va) attrs j with
          | some a => va[j]?.map (overwriteAttributeFields a)
          | none => va[j]? := by
  induction attrs with
  | nil => intro va j; rfl
  | cons a rest ih =>
    intro va j
    cases hfi : findAttributeIndex va a.nameHash with
    | none =>
      have hfh : findHashIdx (nameHashesOf va) a.nameHash = none := by
        rw [← findAttributeIndex_eq_hash]; exact hfi
      simp only [applyAttributeUpdates, hfi]
      rw [ih va j]
      cases hlm : lastMatchUpd (nameHashesOf va) rest j with
      | some b => simp [lastMatchUpd, hlm]
      | none => simp [lastMatchUpd, hlm, hfh]
    | some i =>
      have hfh : findHashIdx (nameHashesOf va) a.nameHash = some i := by
        rw [← findAttributeIndex_eq_hash]; exact hfi
      simp only [applyAttributeUpdates, hfi]
      rw [ih (listModify va i (overwriteAttributeFields a)) j,
        listModify_nameHashes va i a]
      cases hlm : lastMatchUpd (nameHashesOf va) rest j with
      | some b =>
        simp only [lastMatchUpd, hlm, listModify_getElem]
        by_cases hj : j = i
        · subst hj
          cases va[j]? <;> simp [overwrite_overwrite]
        · simp [hj]
      | none =>
        simp only [lastMatchUpd, hlm, listModify_getElem, hfh]
        by_cases hj : j = i
        · subst hj
          simp
        · have : ¬(i = j) := fun hh => hj hh.symm
          simp [hj, this]

theorem applyAttributeUpdates_nameHashes (attrs : List VertexAttribute)
    (va : List VertexAttribute) :
    nameHashesOf (applyAttributeUpdates va attrs).1 = nameHashesOf va := by
  apply List.ext_getElem?
  intro j
  simp only [nameHashesOf, List.getElem?_map]
  rw [applyAttributeUpdates_getElem attrs va j]
  cases lastMatchUpd (nameHashesOf va) attrs j with
  | none => rfl
  | some a => cases va[j]? <;> simp [overwrite_nameHash]

theorem applyAttributeUpdates_flag (attrs : List VertexAttribute) :
    ∀ va, (applyAttributeUpdates va attrs).2
      = attrs.any (fun a => (findHashIdx (nameHashesOf va) a.nameHash).isSome) := by
  induction attrs with
  | nil => intro va; rfl
  | cons a rest ih =>
    intro va
    cases hfi : findAttributeIndex va a.nameHash with
    | none =>
      have hfh : findHashIdx (nameHashesOf va) a.nameHash = none := by
        rw [← findAttributeIndex_eq_hash]; exact hfi
      simp only [applyAttributeUpdates, hfi, List.any_cons, hfh]
      rw [ih va]
      simp
    | some i =>
      have hfh : findHashIdx (nameHashesOf va) a.nameHash = some i := by
        rw [← findAttributeIndex_eq_hash]; exact hfi
      simp [applyAttributeUpdates, hfi, List.any_cons, hfh]

theorem applyAttributeUpdates_idem (attrs : List VertexAttribute)
    (va : List VertexAttribute) :
    applyAttributeUpdates (applyAttributeUpdates va attrs).1 attrs
      = ((applyAttributeUpdates va attrs).1, (applyAttributeUpdates va attrs).2) := by
  have hnh := applyAttributeUpdates_nameHashes attrs va
  have h1 : (applyAttributeUpdates (applyAttributeUpdates va attrs).1 attrs).1
      = (applyAttributeUpdates va attrs).1 := by
    apply List.ext_getElem?
    intro j
    rw [applyAttributeUpdates_getElem attrs _ j, hnh,
      applyAttributeUpdates_getElem attrs va j]
    cases hlm : lastMatchUpd (nameHashesOf va) attrs j with
    | none => rfl
    | some a =>
      cases va[j]? <;> simp [overwrite_overwrite]
  have h2 : (applyAttributeUpdates (applyAttributeUpdates va attrs).1 attrs).2
      = (applyAttributeUpdates va attrs).2 := by
    rw [applyAttributeUpdates_flag, applyAttributeUpdates_flag, hnh]
  calc applyAttributeUpdates (applyAttributeUpdates va attrs).1 attrs
      = ((applyAttributeUpdates (applyAttributeUpdates va attrs).1 attrs).1,
         (applyAttributeUpdates (applyAttributeUpdates va attrs).1 attrs).2) := rfl
    _ = ((applyAttributeUpdates va attrs).1, (applyAttributeUpdates va attrs).2) := by
        rw [h1, h2]

/-! ## Characterization of the re-layout and value-copy loops -/

/-- The byte offset of attribute `j` in the recomputed layout: the sum of the
byte sizes of all preceding attributes. -/
def sumBeforeAttr (va : List VertexAttribute) (j : Nat) : Nat :=
  ((va.take j).map attributeByteSize).sum

theorem recomputeValueIndices_getElem (va : List VertexAttribute) :
    ∀ (mas : List MaterialAttribute) (acc j : Nat),
      (recomputeValueIndices va mas acc)[j]?
        = (mas[j]?).map (fun x =>
            if j < va.length then
              { x with valueIndex := acc + sumBeforeAttr va j }
            else x) := by
  induction va with
  | nil =>
    intro mas acc j
    cases mas with
    | nil => simp [recomputeValueIndices]
    | cons ma mas' =>
      simp only [recomputeValueIndices]
      cases h : (ma :: mas')[j]? <;> simp [h]
  | cons v vs ih =>
    intro mas acc j
    cases mas with
    | nil => simp [recomputeValueIndices]
    | cons ma mas' =>
      cases j with
      | zero =>
        simp [recomputeValueIndices, sumBeforeAttr]
      | succ k =>
        rw [recomputeValueIndices]
        simp only [List.getElem?_cons_succ]
        rw [ih mas' (acc + attributeByteSize v) k]
        cases hx : mas'[k]? with
        | none => simp
        | some x =>
          simp only [Option.map_some']
          have hsum : acc + attributeByteSize v + sumBeforeAttr vs k
              = acc + sumBeforeAttr (v :: vs) (k + 1) := by
            simp [sumBeforeAttr, List.take_succ_cons]
            omega
          by_cases hk : k < vs.length
          · rw [if_pos hk, if_pos (by simpa using Nat.succ_lt_succ hk), hsum]
          · rw [if_neg hk,
              if_neg (by simpa using fun hh => hk (Nat.lt_of_succ_lt_succ hh))]

/-- The fields of a `MaterialAttribute` that the value-copy loop reads: the
byte offset and the array value count. -/
def maProj (x : MaterialAttribute) : Nat × Nat := (x.valueIndex, x.valueCount)

theorem elementIdsUpdate_maProj (a : VertexAttribute) (ma : MaterialAttribute) :
    maProj (elementIdsUpdate a ma) = maProj ma := by
  unfold elementIdsUpdate
  cases a.name <;> rfl

theorem copyByteCount_proj (a : VertexAttribute) (x y : MaterialAttribute)
    (h : maProj x = maProj y) : copyByteCount a x = copyByteCount a y := by
  unfold copyByteCount
  have : x.valueCount = y.valueCount := congrArg Prod.snd h
  rw [this]

/-- The sequence of buffer writes performed by the value-copy loop, read off
the (fixed) material state. -/
def storeList (m : Material) : List VertexAttribute → List StoreOp
  | [] => []
  | a :: rest =>
    match GetMaterialAttributeIndex m a.nameHash with
    | none => storeList m rest
    | some i =>
      match m.materialAttributes[i]? with
      | none => storeList m rest
      | some ma =>
        (ma.valueIndex, a.valueBytes, copyByteCount a ma) :: storeList m rest

theorem storeList_congr (attrs : List VertexAttribute) :
    ∀ m1 m2 : Material,
      m1.vertexAttributes = m2.vertexAttributes →
      (∀ j : Nat, (m1.materialAttributes[j]?).map maProj
          = (m2.materialAttributes[j]?).map maProj) →
      storeList m1 attrs = storeList m2 attrs := by
  induction attrs with
  | nil => intro m1 m2 _ _; rfl
  | cons a rest ih =>
    intro m1 m2 hva hma
    have hidx : GetMaterialAttributeIndex m1 a.nameHash
        = GetMaterialAttributeIndex m2 a.nameHash := by
      unfold GetMaterialAttributeIndex
      rw [hva]
    cases hg : GetMaterialAttributeIndex m2 a.nameHash with
    | none =>
      simp only [storeList, hidx, hg]
      exact ih m1 m2 hva hma
    | some i =>
      have hp := hma i
      cases h1 : m1.materialAttributes[i]? with
      | none =>
        cases h2 : m2.materialAttributes[i]? with
        | none =>
          simp only [storeList, hidx, hg, h1, h2]
          exact ih m1 m2 hva hma
        | some y => rw [h1, h2] at hp; exact absurd hp (by simp)
      | some x =>
        cases h2 : m2.materialAttributes[i]? with
        | none => rw [h1, h2] at hp; exact absurd hp (by simp)
        | some y =>
          rw [h1, h2] at hp
          have hproj : maProj x = maProj y := by simpa using hp
          have hvi : x.valueIndex = y.valueIndex := congrArg Prod.fst hproj
          simp only [storeList, hidx, hg, h1, h2]
          rw [hvi, copyByteCount_proj a x y hproj, ih m1 m2 hva hma]

theorem applyValueCopies_va (attrs : List VertexAttribute) :
    ∀ m, (applyValueCopies m attrs).vertexAttributes = m.vertexAttributes := by
  induction attrs with
  | nil => intro m; rfl
  | cons a rest ih =>
    intro m
    cases hg : GetMaterialAttributeIndex m a.nameHash with
    | none => simp only [applyValueCopies, hg]; exact ih m
    | some i =>
      cases hma : m.materialAttributes[i]? with
      | none => simp only [applyValueCopies, hg, hma]; exact ih m
      | some ma => simp only [applyValueCopies, hg, hma]; exact ih _

theorem applyValueCopies_maProj (attrs : List VertexAttribute) :
    ∀ (m : Material) (j : Nat),
      ((applyValueCopies m attrs).materialAttributes[j]?).map maProj
      = (m.materialAttributes[j]?).map maProj := by
  induction attrs with
  | nil => intro m j; rfl
  | cons a rest ih =>
    intro m j
    cases hg : GetMaterialAttributeIndex m a.nameHash with
    | none => simp only [applyValueCopies, hg]; exact ih m j
    | some i =>
      cases hma : m.materialAttributes[i]? with
      | none => simp only [applyValueCopies, hg, hma]; exact ih m j
      | some ma =>
        simp only [applyValueCopies, hg, hma]
        rw [ih _ j]
        simp only
        by_cases hj : j = i
        · subst hj
          rw [List.getElem?_set_self', hma]
          simp [elementIdsUpdate_maProj]
        · rw [List.getElem?_set_ne (fun hh => hj hh.symm)]

theorem applyValueCopies_values (attrs : List VertexAttribute) :
    ∀ m, (applyValueCopies m attrs).materialAttributeValues
      = applyStores m.materialAttributeValues (storeList m attrs) := by
  induction attrs with
  | nil => intro m; rfl
  | cons a rest ih =>
    intro m
    cases hg : GetMaterialAttributeIndex m a.nameHash with
    | none => simp only [applyValueCopies, storeList, hg]; exact ih m
    | some i =>
      cases hma : m.materialAttributes[i]? with
      | none => simp only [applyValueCopies, storeList, hg, hma]; exact ih m
      | some ma =>
        simp only [applyValueCopies, storeList, hg, hma]
        rw [ih _]
        simp only [applyStores]
        congr 1
        refine storeList_congr rest _ m rfl ?_
        intro j
        simp only
        by_cases hj : j = i
        · subst hj
          rw [List.getElem?_set_self', hma]
          simp [elementIdsUpdate_maProj]
        · rw [List.getElem?_set_ne (fun hh => hj hh.symm)]

/-! ## Idempotence of the attribute override -/

theorem setAttrs_flag_false (m : Material) (attrs : List VertexAttribute)
    (hemp : attrs.isEmpty = false)
    (hflag : (applyAttributeUpdates m.vertexAttributes attrs).2 = false) :
    SetMaterialProgramAttributes m attrs
      = { m with vertexAttributes := (applyAttributeUpdates m.vertexAttributes attrs).1 } := by
  simp [SetMaterialProgramAttributes, hemp, hflag]

theorem setAttrs_flag_true (m : Material) (attrs : List VertexAttribute)
    (hemp : attrs.isEmpty = false)
    (hflag : (applyAttributeUpdates m.vertexAttributes attrs).2 = true) :
    SetMaterialProgramAttributes m attrs
      = applyValueCopies
          { vertexAttributes := (applyAttributeUpdates m.vertexAttributes attrs).1
            materialAttributes :=
              recomputeValueIndices (applyAttributeUpdates m.vertexAttributes attrs).1
                m.materialAttributes 0
            materialAttributeValues :=
              resizeBytes m.materialAttributeValues
                (totalByteSize (applyAttributeUpdates m.vertexAttributes attrs).1) }
          attrs := by
  simp [SetMaterialProgramAttributes, hemp, hflag]

/-- Re-running the value-copy loop over a state produced by re-layout plus
copy leaves the packed buffer unchanged: the second re-layout and resize are
identities, and the write sequence is idempotent. -/
theorem applyValueCopies_rerun (m1 : Material) (attrs : List VertexAttribute)
    (va1 : List VertexAttribute) (mas : List MaterialAttribute) (buf : List Nat)
    (hm1 : m1 = { vertexAttributes := va1
                  materialAttributes := recomputeValueIndices va1 mas 0
                  materialAttributeValues := resizeBytes buf (totalByteSize va1) }) :
    (applyValueCopies
      { vertexAttributes := va1
        materialAttributes :=
          recomputeValueIndices va1 (applyValueCopies m1 attrs).materialAttributes 0
        materialAttributeValues :=
          resizeBytes (applyValueCopies m1 attrs).materialAttributeValues
            (totalByteSize va1) }
      attrs).materialAttributeValues
    = (applyValueCopies m1 attrs).materialAttributeValues := by
  have hva : m1.vertexAttributes = va1 := by rw [hm1]
  have hmas : m1.materialAttributes = recomputeValueIndices va1 mas 0 := by rw [hm1]
  have hbuf : m1.materialAttributeValues = resizeBytes buf (totalByteSize va1) := by
    rw [hm1]
  have hD : recomputeValueIndices va1
      (applyValueCopies m1 attrs).materialAttributes 0
      = (applyValueCopies m1 attrs).materialAttributes := by
    apply List.ext_getElem?
    intro j
    rw [recomputeValueIndices_getElem]
    have hproj := applyValueCopies_maProj attrs m1 j
    rw [hmas, recomputeValueIndices_getElem] at hproj
    cases hs : (applyValueCopies m1 attrs).materialAttributes[j]? with
    | none => rfl
    | some x =>
      rw [hs] at hproj
      cases hmj : mas[j]? with
      | none => rw [hmj] at hproj; simp at hproj
      | some y =>
        rw [hmj] at hproj
        simp only [Option.map_some', Option.some.injEq] at hproj
        simp only [Option.map_some']
        by_cases hj : j < va1.length
        · rw [if_pos hj] at hproj
          have hvi : x.valueIndex = 0 + sumBeforeAttr va1 j := by
            have h1 := congrArg Prod.fst hproj
            simpa [maProj] using h1
          rw [if_pos hj, ← hvi]
        · rw [if_neg hj]
  have hE : resizeBytes (applyValueCopies m1 attrs).materialAttributeValues
      (totalByteSize va1)
      = (applyValueCopies m1 attrs).materialAttributeValues := by
    apply resizeBytes_eq_self
    rw [applyValueCopies_values, applyStores_length, hbuf, resizeBytes_length]
  rw [hD, hE]
  have hrec : ({ vertexAttributes := va1
                 materialAttributes := (applyValueCopies m1 attrs).materialAttributes
                 materialAttributeValues :=
                   (applyValueCopies m1 attrs).materialAttributeValues } : Material)
      = applyValueCopies m1 attrs := by
    have h1 : (applyValueCopies m1 attrs).vertexAttributes = va1 := by
      rw [applyValueCopies_va, hva]
    conv_rhs => rw [show applyValueCopies m1 attrs
      = { vertexAttributes := (applyValueCopies m1 attrs).vertexAttributes
          materialAttributes := (applyValueCopies m1 attrs).materialAttributes
          materialAttributeValues :=
            (applyValueCopies m1 attrs).materialAttributeValues } from rfl]
    rw [h1]
  rw [hrec]
  rw [applyValueCopies_values attrs (applyValueCopies m1 attrs)]
  have hsl : storeList (applyValueCopies m1 attrs) attrs = storeList m1 attrs := by
    apply storeList_congr attrs
    · exact applyValueCopies_va attrs m1
    · exact applyValueCopies_maProj attrs m1
  rw [hsl, applyValueCopies_values attrs m1]
  exact applyStores_idem _ _

/-- C7: `SetMaterialProgramAttributes` is idempotent on the packed value
buffer — running the same descriptor list twice leaves the buffer
byte-for-byte identical to the state after the first run. -/
theorem setMaterialProgramAttributes_c7 (m : Material)
    (attrs : List VertexAttribute) :
    (SetMaterialProgramAttributes (SetMaterialProgramAttributes m attrs)
        attrs).materialAttributeValues
      = (SetMaterialProgramAttributes m attrs).materialAttributeValues := by
  cases hemp : attrs.isEmpty with
  | true =>
    simp [SetMaterialProgramAttributes, hemp]
  | false =>
    have hnh := applyAttributeUpdates_nameHashes attrs m.vertexAttributes
    cases hflag : (applyAttributeUpdates m.vertexAttributes attrs).2 with
    | false =>
      rw [setAttrs_flag_false m attrs hemp hflag]
      have hflag2 : (applyAttributeUpdates
          (applyAttributeUpdates m.vertexAttributes attrs).1 attrs).2 = false := by
        rw [applyAttributeUpdates_flag, hnh, ← applyAttributeUpdates_flag]
        exact hflag
      rw [setAttrs_flag_false _ attrs hemp (by simpa using hflag2)]
    | true =>
      rw [setAttrs_flag_true m attrs hemp hflag]
      have hidem := applyAttributeUpdates_idem attrs m.vertexAttributes
      have hva1 : (applyAttributeUpdates
          (applyAttributeUpdates m.vertexAttributes attrs).1 attrs).1
          = (applyAttributeUpdates m.vertexAttributes attrs).1 := by
        rw [hidem]
      have hflag1 : (applyAttributeUpdates
          (applyAttributeUpdates m.vertexAttributes attrs).1 attrs).2 = true := by
        rw [hidem]; exact hflag
      -- the state fed to the copy loop by the first call
      have hs1va : (applyValueCopies
          { vertexAttributes := (applyAttributeUpdates m.vertexAttributes attrs).1
            materialAttributes :=
              recomputeValueIndices (applyAttributeUpdates m.vertexAttributes attrs).1
                m.materialAttributes 0
            materialAttributeValues :=
              resizeBytes m.materialAttributeValues
                (totalByteSize (applyAttributeUpdates m.vertexAttributes attrs).1) }
          attrs).vertexAttributes
          = (applyAttributeUpdates m.vertexAttributes attrs).1 :=
        applyValueCopies_va attrs _
      rw [setAttrs_flag_true _ attrs hemp (by rw [hs1va]; exact hflag1)]
      rw [hs1va, hva1]
      exact applyValueCopies_rerun _ attrs
        (applyAttributeUpdates m.vertexAttributes attrs).1
        m.materialAttributes m.materialAttributeValues rfl

/-! ## C3: in-place resize versus rebuild-from-scratch -/

theorem resizeBytes_getD (buf : List Nat) (n p : Nat) :
    (resizeBytes buf n).getD p 0 = if p < n then buf.getD p 0 else 0 := by
  rw [List.getD_eq_getElem?_getD]
  unfold resizeBytes
  by_cases hp : p < n
  · rw [List.getElem?_map, List.getElem?_range (by simpa using hp)]
    simp [hp]
  · rw [List.getElem?_eq_none (by simpa using Nat.le_of_not_lt hp)]
    simp [hp]

/-- Modelled from the spec: the override behavior the spec describes — "the
whole buffer is rebuilt, not patched in place": after re-layout the packed
buffer starts as fresh zero bytes of the new size, and only the matching
descriptors' value bytes are then written. Stated to be compared against the
code's `SetMaterialProgramAttributes`. -/
def specRebuildFromScratch (m : Material) (attrs : List VertexAttribute) :
    Material :=
  if attrs.isEmpty then m
  else if !(applyAttributeUpdates m.vertexAttributes attrs).2 then
    { m with vertexAttributes := (applyAttributeUpdates m.vertexAttributes attrs).1 }
  else
    applyValueCopies
      { vertexAttributes := (applyAttributeUpdates m.vertexAttributes attrs).1
        materialAttributes :=
          recomputeValueIndices (applyAttributeUpdates m.vertexAttributes attrs).1
            m.materialAttributes 0
        materialAttributeValues :=
          List.replicate
            (totalByteSize (applyAttributeUpdates m.vertexAttributes attrs).1) 0 }
      attrs

/-- Two byte-sized attributes of four elements each; 8-byte packed buffer
holding nonzero values. -/
def c3Material : Material :=
  ⟨[⟨1, .stNone, .dByte, 4, false, .world, none, []⟩,
    ⟨2, .stNone, .dByte, 4, false, .world, none, []⟩],
   [⟨0, 0, 1, [0, 0, 0, 0]⟩, ⟨1, 4, 1, [0, 0, 0, 0]⟩],
   [10, 11, 12, 13, 20, 21, 22, 23]⟩

/-- An override shrinking the first attribute to one element. -/
def c3Attrs : List VertexAttribute :=
  [⟨1, .stNone, .dByte, 1, false, .world, none, [99]⟩]

/-- Counterexample to C3: shrinking the first attribute moves the second
attribute's offset from 4 to 1, but the buffer is resized in place, so the
second attribute's slot (bytes 1..4 of `[99, 11, 12, 13, 20]`) still holds
stale bytes of the first attribute's old layout — a rebuild from scratch
would yield `[99, 0, 0, 0, 0]`. -/
theorem setMaterialProgramAttributes_c3_counterexample :
    (SetMaterialProgramAttributes c3Material c3Attrs).materialAttributeValues
      = [99, 11, 12, 13, 20]
    ∧ (specRebuildFromScratch c3Material c3Attrs).materialAttributeValues
      = [99, 0, 0, 0, 0]
    ∧ (SetMaterialProgramAttributes c3Material c3Attrs).materialAttributeValues
      ≠ (specRebuildFromScratch c3Material c3Attrs).materialAttributeValues
    ∧ ((SetMaterialProgramAttributes c3Material c3Attrs).materialAttributes.getD 1
        default).valueIndex = 1
    ∧ (SetMaterialProgramAttributes c3Material c3Attrs).materialAttributeValues.getD
        1 0 = 11
    ∧ c3Material.materialAttributeValues.getD 1 0 = 11 := by
  refine ⟨by decide, by decide, by decide, by decide, by decide, by decide⟩

/-- C3 as amended: when the override matches, every byte position of the new
buffer that no value copy covers keeps the byte previously stored at the same
offset in the old buffer (zero where the buffer grew) — the buffer is resized
in place and patched, not rebuilt from scratch. -/
theorem setMaterialProgramAttributes_c3_amended (m : Material)
    (attrs : List VertexAttribute) (p : Nat)
    (hemp : attrs.isEmpty = false)
    (hflag : (applyAttributeUpdates m.vertexAttributes attrs).2 = true)
    (hnc : ¬ coveredBy
      (storeList
        { vertexAttributes := (applyAttributeUpdates m.vertexAttributes attrs).1
          materialAttributes :=
            recomputeValueIndices (applyAttributeUpdates m.vertexAttributes attrs).1
              m.materialAttributes 0
          materialAttributeValues :=
            resizeBytes m.materialAttributeValues
              (totalByteSize (applyAttributeUpdates m.vertexAttributes attrs).1) }
        attrs) p) :
    (SetMaterialProgramAttributes m attrs).materialAttributeValues.getD p 0
      = if p < totalByteSize (applyAttributeUpdates m.vertexAttributes attrs).1
        then m.materialAttributeValues.getD p 0
        else 0 := by
  rw [setAttrs_flag_true m attrs hemp hflag, applyValueCopies_values]
  rw [applyStores_getD_not_covered _ _ _ hnc]
  exact resizeBytes_getD m.materialAttributeValues _ p

/-- Witness for the amended C3 at the concrete material: byte 1 of the new
buffer is not covered by any copy and keeps the old buffer's byte 1. -/
theorem setMaterialProgramAttributes_c3_amended_witness :
    (SetMaterialProgramAttributes c3Material c3Attrs).materialAttributeValues.getD
        1 0
      = if 1 < totalByteSize
            (applyAttributeUpdates c3Material.vertexAttributes c3Attrs).1
        then c3Material.materialAttributeValues.getD 1 0
        else 0 :=
  setMaterialProgramAttributes_c3_amended c3Material c3Attrs 1 (by decide)
    (by decide) (by decide)

/-! ## C4: the copy clamp can exceed the attribute's slot -/

/-- A material whose first attribute has `value_count = 2` but occupies a
single byte slot (offsets: first attribute at 0, second at 1). -/
def c4Material : Material :=
  ⟨[⟨1, .stNone, .dByte, 1, false, .world, none, []⟩,
    ⟨2, .stNone, .dByte, 4, false, .world, none, []⟩],
   [⟨0, 0, 2, [0, 0, 0, 0]⟩, ⟨1, 1, 1, [0, 0, 0, 0]⟩],
   [50, 60, 61, 62, 63]⟩

/-- An override of the first attribute carrying a 2-byte payload. -/
def c4Incoming : VertexAttribute :=
  ⟨1, .stNone, .dByte, 1, false, .world, none, [97, 98]⟩

/-- C4 failing input, evaluated: the clamp
`GetTypeSize * element_count * value_count = 1 * 1 * 2 = 2` exceeds the
attribute's slot capacity `GetTypeSize * element_count = 1`, so the memcpy
writes 2 bytes at offset 0 and overwrites byte 1 — the first byte of the
second attribute's slot (60 becomes 98). -/
theorem setMaterialProgramAttributes_c4_overrun :
    copyByteCount c4Incoming ⟨0, 0, 2, [0, 0, 0, 0]⟩ = 2
    ∧ attributeByteSize c4Incoming = 1
    ∧ ((SetMaterialProgramAttributes c4Material [c4Incoming]).materialAttributes.getD
        1 default).valueIndex = 1
    ∧ (SetMaterialProgramAttributes c4Material
        [c4Incoming]).materialAttributeValues = [97, 98, 61, 62, 63]
    ∧ c4Material.materialAttributeValues = [50, 60, 61, 62, 63] := by
  refine ⟨by decide, by decide, by decide, by decide, by decide⟩

/-! ## C5: element-id regeneration -/

theorem findAttributeIndex_lt (va : List VertexAttribute) (nh : Nat) :
    ∀ i, findAttributeIndex va nh = some i → i < va.length := by
  induction va with
  | nil => intro i h; cases h
  | cons x rest ih =>
    intro i h
    unfold findAttributeIndex at h
    by_cases hx : x.nameHash = nh
    · rw [if_pos hx] at h
      cases h
      exact Nat.succ_pos _
    · rw [if_neg hx] at h
      cases hfi : findAttributeIndex rest nh with
      | none => rw [hfi] at h; cases h
      | some k =>
        rw [hfi] at h
        simp only [Option.map_some', Option.some.injEq] at h
        subst h
        exact Nat.succ_lt_succ (ih k hfi)

theorem listModify_length {α : Type} (l : List α) (i : Nat) (f : α → α) :
    (listModify l i f).length = l.length := by
  unfold listModify
  cases l[i]? <;> simp

/-- C5 as amended: a matching override regenerates the matched attribute's
four sub-element ids from the incoming descriptor's declared name only when
that name is non-null; a null name leaves the previous element ids in place
(the previous `value_index` is still recomputed). -/
theorem setMaterialProgramAttributes_c5_amended (m : Material)
    (a : VertexAttribute) (i : Nat) (ma : MaterialAttribute)
    (hidx : findAttributeIndex m.vertexAttributes a.nameHash = some i)
    (hma : m.materialAttributes[i]? = some ma) :
    ((SetMaterialProgramAttributes m [a]).materialAttributes[i]?).map
        (·.elementIds)
      = some (match a.name with
              | some s => FillElementIds (truncateName s)
              | none => ma.elementIds) := by
  have happly : applyAttributeUpdates m.vertexAttributes [a]
      = (listModify m.vertexAttributes i (overwriteAttributeFields a), true) := by
    simp [applyAttributeUpdates, hidx]
  have h1 : (applyAttributeUpdates m.vertexAttributes [a]).1
      = listModify m.vertexAttributes i (overwriteAttributeFields a) := by
    rw [happly]
  have h2 : (applyAttributeUpdates m.vertexAttributes [a]).2 = true := by
    rw [happly]
  rw [setAttrs_flag_true m [a] rfl h2, h1]
  have hilt : i < (listModify m.vertexAttributes i
      (overwriteAttributeFields a)).length := by
    rw [listModify_length]
    exact findAttributeIndex_lt _ _ i hidx
  have hidx' : GetMaterialAttributeIndex
      { vertexAttributes :=
          listModify m.vertexAttributes i (overwriteAttributeFields a)
        materialAttributes :=
          recomputeValueIndices
            (listModify m.vertexAttributes i (overwriteAttributeFields a))
            m.materialAttributes 0
        materialAttributeValues :=
          resizeBytes m.materialAttributeValues
            (totalByteSize
              (listModify m.vertexAttributes i (overwriteAttributeFields a))) }
      a.nameHash = some i := by
    show findAttributeIndex
      (listModify m.vertexAttributes i (overwriteAttributeFields a))
      a.nameHash = some i
    rw [findAttributeIndex_eq_hash, listModify_nameHashes,
      ← findAttributeIndex_eq_hash]
    exact hidx
  have hma1 : (recomputeValueIndices
      (listModify m.vertexAttributes i (overwriteAttributeFields a))
      m.materialAttributes 0)[i]?
      = some { ma with
               valueIndex :=
                 0 + sumBeforeAttr
                   (listModify m.vertexAttributes i (overwriteAttributeFields a))
                   i } := by
    rw [recomputeValueIndices_getElem, hma]
    simp [hilt]
  simp only [applyValueCopies, hidx', hma1]
  rw [List.getElem?_set_self', hma1]
  cases hn : a.name with
  | some s => simp [elementIdsUpdate, hn]
  | none => simp [elementIdsUpdate, hn]

/-- One attribute named with bytes "foo", carrying element ids
`[7, 7, 7, 7]`. -/
def c5Material : Material :=
  ⟨[⟨1, .stNone, .dByte, 1, false, .world, some [102, 111, 111], []⟩],
   [⟨0, 0, 1, [7, 7, 7, 7]⟩], [5]⟩

/-- An override that matches by name hash 1 but carries a null name. -/
def c5Attrs : List VertexAttribute :=
  [⟨1, .stNone, .dByte, 1, false, .world, none, []⟩]

/-- Counterexample to C5: the override matches the stored attribute, yet the
element ids are not regenerated — the incoming descriptor has a null
`m_Name`, so material.cpp:446 skips `FillElementIds` and the stale ids
`[7, 7, 7, 7]` survive. -/
theorem setMaterialProgramAttributes_c5_counterexample :
    GetMaterialAttributeIndex c5Material 1 = some 0
    ∧ ((SetMaterialProgramAttributes c5Material c5Attrs).materialAttributes.getD
        0 default).elementIds = [7, 7, 7, 7]
    ∧ FillElementIds (truncateName [102, 111, 111]) ≠ [7, 7, 7, 7] := by
  refine ⟨by decide, by decide, by decide⟩

/-- Witness for the amended C5: a descriptor carrying the name "foo"
regenerates the element ids from that name. -/
theorem setMaterialProgramAttributes_c5_amended_witness :
    ((SetMaterialProgramAttributes c5Material
        [⟨1, .stNone, .dByte, 1, false, .world, some [102, 111, 111],
          []⟩]).materialAttributes[0]?).map (·.elementIds)
      = some (FillElementIds (truncateName [102, 111, 111])) :=
  setMaterialProgramAttributes_c5_amended c5Material
    ⟨1, .stNone, .dByte, 1, false, .world, some [102, 111, 111], []⟩ 0
    ⟨0, 0, 1, [7, 7, 7, 7]⟩ (by decide) (by decide)

end DefoldSpec
